import Mathlib

/-!
Verification of `hermes/src/state/benchmarks.rs`.

A shallow embedding of the Pyth Benchmarks client module: the binary-blob
decoder (`TryFrom<BinaryBlob> for Vec<Vec<u8>>`), the response assembler
(`TryFrom<BenchmarkUpdates> for PriceFeedsWithUpdateData`), and the fetcher
(`get_verified_price_feeds`).

Bytes are modelled as `Nat` (values below 256), strings at the `Char` level.
The third-party codecs the module calls are embedded from their documented
semantics: the `hex` crate (case-tolerant hex pairs, even length checked
first, lowercase canonical encoding) and the `base64` crate's
`general_purpose::STANDARD` engine (standard alphabet, canonical padding
required, trailing bits must be zero, padded encoding).  Errors are
`Except String` with one message per distinct failure shape; the module
itself wraps all of them in `anyhow::Error`, so only the success/failure
split and propagation identity are relied on downstream.
-/

namespace Benchmarks

/-- A decoded byte sequence; every element produced by the codecs is `< 256`. -/
abbrev Bytes := List Nat

/-! Hex codec (`hex` crate). -/

/-- Value of one hex digit: `0-9`, `a-f`, `A-F`, as in `hex::decode`'s
per-byte match.  `none` for any other character. -/
def hexVal? (c : Char) : Option Nat :=
  let n := c.toNat
  if 48 ≤ n ∧ n ≤ 57 then some (n - 48)
  else if 97 ≤ n ∧ n ≤ 102 then some (n - 87)
  else if 65 ≤ n ∧ n ≤ 70 then some (n - 55)
  else none

/-- Decode an even-length list of hex digits, two characters per byte,
left to right, stopping at the first invalid character. -/
def hexDecodeChars : List Char → Except String Bytes
  | [] => .ok []
  | [_] => .error "hex: odd length"
  | c1 :: c2 :: rest =>
    match hexVal? c1, hexVal? c2 with
    | some h, some l => (hexDecodeChars rest).map (fun bs => (h * 16 + l) :: bs)
    | _, _ => .error "hex: invalid character"

/-- `hex::decode`: rejects odd length up front, then decodes pairs. -/
def hexDecode (s : String) : Except String Bytes :=
  if s.data.length % 2 = 1 then .error "hex: odd length"
  else hexDecodeChars s.data

/-- Canonical lower-case hex digit for a value `< 16` (`hex::encode`). -/
def hexDigitLower (v : Nat) : Char :=
  if v < 10 then Char.ofNat (48 + v) else Char.ofNat (87 + v)

/-- `hex::encode` on a byte list: two lower-case digits per byte. -/
def hexEncodeBytes : Bytes → List Char
  | [] => []
  | b :: rest => hexDigitLower (b / 16) :: hexDigitLower (b % 16) :: hexEncodeBytes rest

/-- `hex::encode` as a string transform. -/
def hexEncode (bs : Bytes) : String := String.mk (hexEncodeBytes bs)

/-! Base64 codec (`base64` crate, `general_purpose::STANDARD`). -/

/-- Index of a character in the standard base64 alphabet
(`A-Z`, `a-z`, `0-9`, `+`, `/`); `none` otherwise (including `=`). -/
def b64Val? (c : Char) : Option Nat :=
  let n := c.toNat
  if 65 ≤ n ∧ n ≤ 90 then some (n - 65)
  else if 97 ≤ n ∧ n ≤ 122 then some (n - 71)
  else if 48 ≤ n ∧ n ≤ 57 then some (n + 4)
  else if n = 43 then some 62
  else if n = 47 then some 63
  else none

/-- Character of the standard base64 alphabet at index `v < 64`. -/
def b64Char (v : Nat) : Char :=
  if v < 26 then Char.ofNat (65 + v)
  else if v < 52 then Char.ofNat (71 + v)
  else if v < 62 then Char.ofNat (v - 4)
  else if v = 62 then '+' else '/'

/-- Decode whole base64 quads, as the STANDARD engine with canonical
padding required and trailing bits rejected: input length must be a
multiple of four, padding (`=`) may appear only in the last quad (one or
two characters), and the unused low bits of the last symbol must be zero. -/
def b64DecodeQuads : List Char → Except String Bytes
  | [] => .ok []
  | c1 :: c2 :: c3 :: c4 :: rest =>
    if c4 = '=' then
      if rest.isEmpty then
        if c3 = '=' then
          match b64Val? c1, b64Val? c2 with
          | some v1, some v2 =>
            if v2 % 16 = 0 then .ok [v1 * 4 + v2 / 16]
            else .error "base64: invalid last symbol"
          | _, _ => .error "base64: invalid byte"
        else
          match b64Val? c1, b64Val? c2, b64Val? c3 with
          | some v1, some v2, some v3 =>
            if v3 % 4 = 0 then .ok [v1 * 4 + v2 / 16, v2 % 16 * 16 + v3 / 4]
            else .error "base64: invalid last symbol"
          | _, _, _ => .error "base64: invalid byte"
      else .error "base64: invalid byte"
    else
      match b64Val? c1, b64Val? c2, b64Val? c3, b64Val? c4 with
      | some v1, some v2, some v3, some v4 =>
        (b64DecodeQuads rest).map
          (fun bs => (v1 * 4 + v2 / 16) :: (v2 % 16 * 16 + v3 / 4) :: (v3 % 4 * 64 + v4) :: bs)
      | _, _, _, _ => .error "base64: invalid byte"
  | _ => .error "base64: invalid length"

/-- `base64_standard_engine.decode` on a string. -/
def b64Decode (s : String) : Except String Bytes := b64DecodeQuads s.data

/-- STANDARD (padded) base64 encoding of a byte list, three bytes per quad,
with `=` padding on a trailing one- or two-byte group. -/
def b64EncodeBytes : Bytes → List Char
  | [] => []
  | [b1] => [b64Char (b1 / 4), b64Char (b1 % 4 * 16), '=', '=']
  | [b1, b2] => [b64Char (b1 / 4), b64Char (b1 % 4 * 16 + b2 / 16), b64Char (b2 % 16 * 4), '=']
  | b1 :: b2 :: b3 :: rest =>
    b64Char (b1 / 4) :: b64Char (b1 % 4 * 16 + b2 / 16) ::
      b64Char (b2 % 16 * 4 + b3 / 64) :: b64Char (b3 % 64) :: b64EncodeBytes rest

/-- STANDARD (padded) base64 encoding as a string. -/
def b64Encode (bs : Bytes) : String := String.mk (b64EncodeBytes bs)

/-! The data model of the module. -/

/-- `enum BlobEncoding { Base64, Hex }`. -/
inductive BlobEncoding
  | base64
  | hex
deriving DecidableEq, Repr

/-- `struct BinaryBlob { encoding, data }`. -/
structure BinaryBlob where
  encoding : BlobEncoding
  data : List String
deriving DecidableEq, Repr

/-- One datum decoded under the blob's tag: the match inside `try_from`. -/
def decodeDatum : BlobEncoding → String → Except String Bytes
  | .base64, s => b64Decode s
  | .hex, s => hexDecode s

/-- The `.iter().map(...).collect::<Result<_>>()` traversal: decode each
datum in order, aborting at the first failure. -/
def decodeAll (e : BlobEncoding) : List String → Except String (List Bytes)
  | [] => .ok []
  | s :: rest => do
    let b ← decodeDatum e s
    let bs ← decodeAll e rest
    pure (b :: bs)

/-- `impl TryFrom<BinaryBlob> for Vec<Vec<u8>>`. -/
def binaryBlobTryInto (b : BinaryBlob) : Except String (List Bytes) :=
  decodeAll b.encoding b.data

/-- `struct BenchmarkUpdates { parsed, binary }`; the parsed price-feed
values (`pyth_sdk::PriceFeed`) are opaque to this module, hence a type
parameter. -/
structure BenchmarkUpdates (α : Type) where
  parsed : List α
  binary : BinaryBlob

/-- `PriceFeedUpdate`: a parsed value plus four optional fields. -/
structure PriceFeedUpdate (α : Type) where
  price_feed : α
  slot : Option Nat
  received_at : Option Int
  update_data : Option Bytes
  prev_publish_time : Option Int
deriving DecidableEq, Repr

/-- `PriceFeedsWithUpdateData`: the internal result shape. -/
structure PriceFeedsWithUpdateData (α : Type) where
  price_feeds : List (PriceFeedUpdate α)
  update_data : List Bytes

/-- `impl TryFrom<BenchmarkUpdates> for PriceFeedsWithUpdateData`: map every
parsed value to a record with all four optional fields unset, and decode the
binary blob, propagating its error unchanged via `?`. -/
def benchmarkUpdatesTryInto {α : Type} (u : BenchmarkUpdates α) :
    Except String (PriceFeedsWithUpdateData α) := do
  let ud ← binaryBlobTryInto u.binary
  pure
    { price_feeds := u.parsed.map fun pf =>
        { price_feed := pf, slot := none, received_at := none,
          update_data := none, prev_publish_time := none }
      update_data := ud }

/-! Fetcher model. -/

/-- A price identifier (`pyth_sdk::PriceIdentifier`) is opaque to this
module except for its canonical string serialization, used when it is
appended as a query value. -/
structure PriceIdentifier where
  canonical : String
deriving DecidableEq, Repr

/-- A base URL as the `url` crate presents it to `join`: either a
hierarchical (can-be-a-base) URL, whose non-path part is kept opaque, or a
cannot-be-a-base URL.  Only the behaviour of `join` on an absolute-path
reference is needed here. -/
structure Url where
  cannot_be_a_base : Bool
  base_part : String
  path : String
deriving DecidableEq, Repr

/-- `Url::join` on an absolute-path reference, per the `url` crate's
documented semantics: against a hierarchical base it replaces the path
(percent-encoding, never failing); against a cannot-be-a-base URL it fails
with `RelativeUrlCannotBeABase`. -/
def Url.join (u : Url) (input : String) : Option Url :=
  if u.cannot_be_a_base then none
  else some { u with path := input }

/-- The request `get_verified_price_feeds` hands to `reqwest`: joined URL,
30-second timeout, and the query pairs in the order they are attached. -/
structure HttpRequest where
  url : Url
  timeout_secs : Nat
  query : List (String × String)
deriving DecidableEq, Repr

/-- Outcome of one fetch: `Ok`, an `anyhow` error, or a panic (the code
calls `.unwrap()` on the join result). -/
inductive FetchResult (α : Type)
  | ok : α → FetchResult α
  | err : String → FetchResult α
  | panic : FetchResult α
deriving DecidableEq

/-- `get_verified_price_feeds`.  The network (send + JSON deserialization
into `BenchmarkUpdates`) is an oracle `net`; transport and schema failures
are its `.error` outcomes.  The second component lists the requests
actually sent, in order, so "zero network operations" is observable. -/
def get_verified_price_feeds {α : Type}
    (net : HttpRequest → Except String (BenchmarkUpdates α))
    (benchmarks_endpoint : Option Url) (price_ids : List PriceIdentifier)
    (publish_time : Int) :
    FetchResult (PriceFeedsWithUpdateData α) × List HttpRequest :=
  match benchmarks_endpoint with
  | none => (.err "Benchmarks endpoint is not set", [])
  | some ep =>
    match ep.join ("/v1/updates/price/" ++ toString publish_time) with
    | none => (.panic, [])
    | some u =>
      let req : HttpRequest :=
        { url := u, timeout_secs := 30
          query := [("encoding", "hex"), ("parsed", "true")] ++
            price_ids.map fun pid => ("ids", pid.canonical) }
      match net req with
      | .error e => (.err e, [req])
      | .ok bu =>
        match benchmarkUpdatesTryInto bu with
        | .error e => (.err e, [req])
        | .ok r => (.ok r, [req])

end Benchmarks

/-! Character-level facts about the two alphabets. -/

namespace Benchmarks

/-- A hex digit's value is below 16. -/
theorem hexVal_lt {c : Char} {v : Nat} (h : hexVal? c = some v) : v < 16 := by
  simp only [hexVal?] at h
  repeat' split at h
  all_goals simp only [Option.some.injEq, reduceCtorEq] at h
  all_goals omega

/-- Re-encoding a hex digit's value gives the digit itself, lower-cased. -/
theorem hexVal_toLower {c : Char} {v : Nat} (h : hexVal? c = some v) :
    hexDigitLower v = c.toLower := by
  simp only [hexVal?] at h
  simp only [hexDigitLower, Char.toLower]
  split at h
  case isTrue h1 =>
    rw [Option.some.injEq] at h
    subst h
    rw [if_pos (by omega), if_neg (by omega), show 48 + (c.toNat - 48) = c.toNat by omega,
      Char.ofNat_toNat]
  case isFalse h1 =>
    split at h
    case isTrue h2 =>
      rw [Option.some.injEq] at h
      subst h
      rw [if_neg (by omega), if_neg (by omega), show 87 + (c.toNat - 87) = c.toNat by omega,
        Char.ofNat_toNat]
    case isFalse h2 =>
      split at h
      case isTrue h3 =>
        rw [Option.some.injEq] at h
        subst h
        rw [if_neg (by omega), if_pos (by omega)]
        congr 1
        omega
      case isFalse h3 => exact absurd h (by simp)

/-- A base64 symbol's value is below 64. -/
theorem b64Val_lt {c : Char} {v : Nat} (h : b64Val? c = some v) : v < 64 := by
  simp only [b64Val?] at h
  repeat' split at h
  all_goals simp only [Option.some.injEq, reduceCtorEq] at h
  all_goals omega

/-- The standard base64 alphabet is case-sensitive, so the symbol of a
decoded value is exactly the original character. -/
theorem b64Char_b64Val {c : Char} {v : Nat} (h : b64Val? c = some v) : b64Char v = c := by
  simp only [b64Val?] at h
  simp only [b64Char]
  split at h
  case isTrue h1 =>
    rw [Option.some.injEq] at h
    subst h
    rw [if_pos (by omega), show 65 + (c.toNat - 65) = c.toNat by omega, Char.ofNat_toNat]
  case isFalse h1 =>
    split at h
    case isTrue h2 =>
      rw [Option.some.injEq] at h
      subst h
      rw [if_neg (by omega), if_pos (by omega), show 71 + (c.toNat - 71) = c.toNat by omega,
        Char.ofNat_toNat]
    case isFalse h2 =>
      split at h
      case isTrue h3 =>
        rw [Option.some.injEq] at h
        subst h
        rw [if_neg (by omega), if_neg (by omega), if_pos (by omega),
          show c.toNat + 4 - 4 = c.toNat by omega, Char.ofNat_toNat]
      case isFalse h3 =>
        split at h
        case isTrue h4 =>
          rw [Option.some.injEq] at h
          subst h
          rw [if_neg (by omega), if_neg (by omega), if_neg (by omega), if_pos rfl,
            ← Char.ofNat_toNat c, h4]
        case isFalse h4 =>
          split at h
          case isTrue h5 =>
            rw [Option.some.injEq] at h
            subst h
            rw [if_neg (by omega), if_neg (by omega), if_neg (by omega), if_neg (by omega),
              ← Char.ofNat_toNat c, h5]
          case isFalse h5 => exact absurd h (by simp)

/-! Round-trip lemmas for the two codecs. -/

/-- Hex decode followed by canonical encode lower-cases the digits. -/
theorem hexDecodeChars_encode {l : List Char} {bs : Bytes}
    (h : hexDecodeChars l = .ok bs) : hexEncodeBytes bs = l.map Char.toLower := by
  induction l using hexDecodeChars.induct generalizing bs with
  | case1 =>
    cases h
    rfl
  | case2 c => simp [hexDecodeChars] at h
  | case3 c1 c2 rest hv lv hv2 hv1 ih =>
    simp only [hexDecodeChars, hv1, hv2] at h
    cases hr : hexDecodeChars rest with
    | error e => rw [hr] at h; simp [Except.map] at h
    | ok t =>
      rw [hr] at h
      simp only [Except.map, Except.ok.injEq] at h
      subst h
      have hlt : lv < 16 := hexVal_lt hv2
      simp only [hexEncodeBytes, List.map]
      rw [show (hv * 16 + lv) / 16 = hv by omega, show (hv * 16 + lv) % 16 = lv by omega,
        hexVal_toLower hv1, hexVal_toLower hv2, ih hr]
  | case4 c1 c2 rest hnone =>
    simp only [hexDecodeChars] at h
    cases e1 : hexVal? c1 with
    | none => simp at h
    | some v1 =>
      cases e2 : hexVal? c2 with
      | none => simp at h
      | some v2 => exact (hnone v1 v2 e1 e2).elim

/-- Base64 decode followed by STANDARD padded encode is the identity on the
input characters: every accepted quad re-encodes to itself. -/
theorem b64DecodeQuads_encode {l : List Char} {bs : Bytes}
    (h : b64DecodeQuads l = .ok bs) : b64EncodeBytes bs = l := by
  induction l using b64DecodeQuads.induct generalizing bs with
  | case1 =>
    cases h
    rfl
  | case2 c1 c2 rest hrest v1 v2 hv2 hv1 hmod =>
    rw [List.isEmpty_iff] at hrest
    subst hrest
    simp only [b64DecodeQuads, hv1, hv2, hmod, List.isEmpty_nil, if_true, if_pos rfl,
      reduceIte, Except.ok.injEq] at h
    subst h
    have h1 : v1 < 64 := b64Val_lt hv1
    have h2 : v2 < 64 := b64Val_lt hv2
    simp only [b64EncodeBytes]
    rw [show (v1 * 4 + v2 / 16) / 4 = v1 by omega,
      show (v1 * 4 + v2 / 16) % 4 * 16 = v2 by omega,
      b64Char_b64Val hv1, b64Char_b64Val hv2]
  | case3 c1 c2 rest hrest v1 v2 hv2 hv1 hmod =>
    simp only [b64DecodeQuads, hv1, hv2, hmod, hrest, reduceIte, reduceCtorEq] at h
  | case4 c1 c2 rest hrest hnone =>
    simp only [b64DecodeQuads, hrest, reduceIte] at h
    cases e1 : b64Val? c1 with
    | none => simp at h
    | some v1 =>
      cases e2 : b64Val? c2 with
      | none => simp at h
      | some v2 => exact (hnone v1 v2 e1 e2).elim
  | case5 c1 c2 c3 rest hrest hne v1 v2 v3 hv3 hv2 hv1 hmod =>
    rw [List.isEmpty_iff] at hrest
    subst hrest
    simp only [b64DecodeQuads, hv1, hv2, hv3, hmod, hne, List.isEmpty_nil, reduceIte,
      Except.ok.injEq] at h
    subst h
    have h1 : v1 < 64 := b64Val_lt hv1
    have h2 : v2 < 64 := b64Val_lt hv2
    have h3 : v3 < 64 := b64Val_lt hv3
    simp only [b64EncodeBytes]
    rw [show (v1 * 4 + v2 / 16) / 4 = v1 by omega,
      show (v1 * 4 + v2 / 16) % 4 * 16 + (v2 % 16 * 16 + v3 / 4) / 16 = v2 by omega,
      show (v2 % 16 * 16 + v3 / 4) % 16 * 4 = v3 by omega,
      b64Char_b64Val hv1, b64Char_b64Val hv2, b64Char_b64Val hv3]
  | case6 c1 c2 c3 rest hrest hne v1 v2 v3 hv3 hv2 hv1 hmod =>
    simp only [b64DecodeQuads, hv1, hv2, hv3, hmod, hne, hrest, reduceIte, reduceCtorEq] at h
  | case7 c1 c2 c3 rest hrest hne hnone =>
    simp only [b64DecodeQuads, hrest, hne, reduceIte] at h
    cases e1 : b64Val? c1 with
    | none => simp at h
    | some v1 =>
      cases e2 : b64Val? c2 with
      | none => simp at h
      | some v2 =>
        cases e3 : b64Val? c3 with
        | none => simp at h
        | some v3 => exact (hnone v1 v2 v3 e1 e2 e3).elim
  | case8 c1 c2 c3 rest hrest =>
    simp only [b64DecodeQuads, hrest, reduceIte, reduceCtorEq] at h
  | case9 c1 c2 c3 c4 rest hne v1 v2 v3 v4 hv4 hv3 hv2 hv1 ih =>
    simp only [b64DecodeQuads, hv1, hv2, hv3, hv4, hne, reduceIte] at h
    cases hr : b64DecodeQuads rest with
    | error e => rw [hr] at h; simp [Except.map] at h
    | ok t =>
      rw [hr] at h
      simp only [Except.map, Except.ok.injEq] at h
      subst h
      have h1 : v1 < 64 := b64Val_lt hv1
      have h2 : v2 < 64 := b64Val_lt hv2
      have h3 : v3 < 64 := b64Val_lt hv3
      have h4 : v4 < 64 := b64Val_lt hv4
      simp only [b64EncodeBytes]
      rw [show (v1 * 4 + v2 / 16) / 4 = v1 by omega,
        show (v1 * 4 + v2 / 16) % 4 * 16 + (v2 % 16 * 16 + v3 / 4) / 16 = v2 by omega,
        show (v2 % 16 * 16 + v3 / 4) % 16 * 4 + (v3 % 4 * 64 + v4) / 64 = v3 by omega,
        show (v3 % 4 * 64 + v4) % 64 = v4 by omega,
        b64Char_b64Val hv1, b64Char_b64Val hv2, b64Char_b64Val hv3, b64Char_b64Val hv4,
        ih hr]
  | case10 c1 c2 c3 c4 rest hne hnone =>
    simp only [b64DecodeQuads, hne, reduceIte] at h
    cases e1 : b64Val? c1 with
    | none => simp at h
    | some v1 =>
      cases e2 : b64Val? c2 with
      | none => simp at h
      | some v2 =>
        cases e3 : b64Val? c3 with
        | none => simp at h
        | some v3 =>
          cases e4 : b64Val? c4 with
          | none => simp at h
          | some v4 => exact (hnone v1 v2 v3 v4 e1 e2 e3 e4).elim
  | case11 t hnil hlong =>
    match t, hnil, hlong with
    | [], hnil, _ => exact (hnil rfl).elim
    | [a], _, _ => simp [b64DecodeQuads] at h
    | [a, b], _, _ => simp [b64DecodeQuads] at h
    | [a, b, c], _, _ => simp [b64DecodeQuads] at h
    | a :: b :: c :: d :: r, _, hlong => exact (hlong a b c d r rfl).elim

/-! Behaviour of the blob traversal. -/

/-- If every datum decodes, the traversal succeeds, preserves length, and
is pointwise the per-datum decoding. -/
theorem decodeAll_ok_of_all_ok {e : BlobEncoding} {l : List String}
    (h : ∀ s ∈ l, (decodeDatum e s).isOk = true) :
    ∃ out, decodeAll e l = .ok out ∧ out.length = l.length ∧
      ∀ i (hi : i < l.length) (hi' : i < out.length),
        decodeDatum e l[i] = .ok out[i] := by
  induction l with
  | nil => exact ⟨[], rfl, rfl, fun i hi _ => absurd hi (by simp)⟩
  | cons s rest ih =>
    have hs := h s (List.mem_cons_self s rest)
    obtain ⟨out, hout, hlen, hidx⟩ := ih fun t ht => h t (List.mem_cons_of_mem _ ht)
    cases hd : decodeDatum e s with
    | error err => rw [hd] at hs; simp [Except.isOk, Except.toBool] at hs
    | ok b =>
      refine ⟨b :: out, ?_, by simp [hlen], ?_⟩
      · simp [decodeAll, hd, hout, Except.bind, Except.pure, Bind.bind, Pure.pure]
      · intro i hi hi'
        cases i with
        | zero => simpa using hd
        | succ j => simpa using hidx j (by simpa using hi) (by simpa using hi')

/-- If any datum fails to decode, the whole traversal returns an error. -/
theorem decodeAll_error_of_mem {e : BlobEncoding} {l : List String}
    (h : ∃ s ∈ l, (decodeDatum e s).isOk = false) :
    ∃ err, decodeAll e l = .error err := by
  induction l with
  | nil => simp at h
  | cons s rest ih =>
    cases hd : decodeDatum e s with
    | error err => exact ⟨err, by simp [decodeAll, hd, Except.bind, Bind.bind]⟩
    | ok b =>
      obtain ⟨t, ht, hbad⟩ := h
      rcases List.mem_cons.mp ht with rfl | htr
      · rw [hd] at hbad; simp [Except.isOk, Except.toBool] at hbad
      · obtain ⟨err, herr⟩ := ih ⟨t, htr, hbad⟩
        exact ⟨err, by simp [decodeAll, hd, herr, Except.bind, Bind.bind]⟩

end Benchmarks

/-! The claims. -/

namespace Benchmarks

/-- C1: for every `BinaryBlob` whose strings are all well-formed under its
encoding tag, the decode (`TryFrom<BinaryBlob> for Vec<Vec<u8>>`) returns a
sequence of byte sequences of the same length as `data`, whose entry at
each index is the decoding of the string at that index under the blob's
single tag. -/
theorem decode_blob_pointwise (b : BinaryBlob)
    (h : ∀ s ∈ b.data, (decodeDatum b.encoding s).isOk = true) :
    ∃ out, binaryBlobTryInto b = .ok out ∧ out.length = b.data.length ∧
      ∀ i (hi : i < b.data.length) (hi' : i < out.length),
        decodeDatum b.encoding b.data[i] = .ok out[i] :=
  decodeAll_ok_of_all_ok h

/-- Witness for C1 at the hex blob `["aabb", "ccdd"]`. -/
theorem decode_blob_pointwise_witness :
    (∀ s ∈ (⟨.hex, ["aabb", "ccdd"]⟩ : BinaryBlob).data,
        (decodeDatum .hex s).isOk = true) ∧
    ∃ out, binaryBlobTryInto ⟨.hex, ["aabb", "ccdd"]⟩ = .ok out ∧
      out.length = (⟨.hex, ["aabb", "ccdd"]⟩ : BinaryBlob).data.length ∧
      ∀ i (hi : i < (⟨.hex, ["aabb", "ccdd"]⟩ : BinaryBlob).data.length)
        (hi' : i < out.length),
        decodeDatum .hex (⟨.hex, ["aabb", "ccdd"]⟩ : BinaryBlob).data[i] = .ok out[i] :=
  ⟨by decide, decode_blob_pointwise ⟨.hex, ["aabb", "ccdd"]⟩ (by decide)⟩

/-- C2: a blob containing at least one malformed string fails the whole
decode with an error and no partial result, and the assembler propagates
exactly that error. -/
theorem decode_all_or_nothing {α : Type} (b : BinaryBlob) (parsed : List α)
    (h : ∃ s ∈ b.data, (decodeDatum b.encoding s).isOk = false) :
    ∃ err, binaryBlobTryInto b = .error err ∧
      benchmarkUpdatesTryInto { parsed := parsed, binary := b } = .error err := by
  obtain ⟨err, herr⟩ := decodeAll_error_of_mem h
  exact ⟨err, herr, by simp [benchmarkUpdatesTryInto, binaryBlobTryInto] at herr ⊢; simp [herr]⟩

/-- Witness for C2: the second datum `"zz"` is malformed hex, after a
well-formed first datum. -/
theorem decode_all_or_nothing_witness :
    (∃ s ∈ (⟨.hex, ["aabb", "zz"]⟩ : BinaryBlob).data,
        (decodeDatum .hex s).isOk = false) ∧
    ∃ err, binaryBlobTryInto ⟨.hex, ["aabb", "zz"]⟩ = .error err ∧
      benchmarkUpdatesTryInto { parsed := [1, 2], binary := ⟨.hex, ["aabb", "zz"]⟩ } =
        .error err :=
  ⟨by decide, decode_all_or_nothing ⟨.hex, ["aabb", "zz"]⟩ [1, 2] (by decide)⟩

/-- C3: when the blob decodes, the assembler returns a record sequence of
the same length and order as `parsed`, each record carrying its parsed
value with all four optional fields unset. -/
theorem assemble_records_shape {α : Type} (u : BenchmarkUpdates α)
    (h : (binaryBlobTryInto u.binary).isOk = true) :
    ∃ r, benchmarkUpdatesTryInto u = .ok r ∧
      r.price_feeds.length = u.parsed.length ∧
      ∀ i (hi : i < u.parsed.length) (hi' : i < r.price_feeds.length),
        (r.price_feeds[i]).price_feed = u.parsed[i] ∧
        (r.price_feeds[i]).slot = none ∧
        (r.price_feeds[i]).received_at = none ∧
        (r.price_feeds[i]).update_data = none ∧
        (r.price_feeds[i]).prev_publish_time = none := by
  cases hd : binaryBlobTryInto u.binary with
  | error e => rw [hd] at h; simp [Except.isOk, Except.toBool] at h
  | ok ud =>
    refine ⟨⟨u.parsed.map fun pf => ⟨pf, none, none, none, none⟩, ud⟩, ?_, by simp, ?_⟩
    · simp [benchmarkUpdatesTryInto, hd, Except.bind, Bind.bind, Except.pure, Pure.pure]
    · intro i hi hi'
      simp

/-- Witness for C3 at two parsed values and a one-item hex blob. -/
theorem assemble_records_shape_witness :
    ((binaryBlobTryInto (⟨[5, 7], ⟨.hex, ["aabb"]⟩⟩ : BenchmarkUpdates Nat).binary).isOk
      = true) ∧
    ∃ r, benchmarkUpdatesTryInto (⟨[5, 7], ⟨.hex, ["aabb"]⟩⟩ : BenchmarkUpdates Nat) = .ok r ∧
      r.price_feeds.length = (⟨[5, 7], ⟨.hex, ["aabb"]⟩⟩ : BenchmarkUpdates Nat).parsed.length ∧
      ∀ i (hi : i < (⟨[5, 7], ⟨.hex, ["aabb"]⟩⟩ : BenchmarkUpdates Nat).parsed.length)
        (hi' : i < r.price_feeds.length),
        (r.price_feeds[i]).price_feed =
          (⟨[5, 7], ⟨.hex, ["aabb"]⟩⟩ : BenchmarkUpdates Nat).parsed[i] ∧
        (r.price_feeds[i]).slot = none ∧
        (r.price_feeds[i]).received_at = none ∧
        (r.price_feeds[i]).update_data = none ∧
        (r.price_feeds[i]).prev_publish_time = none :=
  ⟨by decide, assemble_records_shape ⟨[5, 7], ⟨.hex, ["aabb"]⟩⟩ (by decide)⟩

/-- C4: the assembler performs no parsed-count versus blob-item-count
check: whenever every blob item decodes, it succeeds even though the two
lengths differ. -/
theorem assemble_no_length_check {α : Type} (u : BenchmarkUpdates α)
    (h : ∀ s ∈ u.binary.data, (decodeDatum u.binary.encoding s).isOk = true)
    (_hlen : u.parsed.length ≠ u.binary.data.length) :
    (benchmarkUpdatesTryInto u).isOk = true := by
  obtain ⟨out, hout, -, -⟩ := decodeAll_ok_of_all_ok h
  simp [benchmarkUpdatesTryInto, binaryBlobTryInto, hout, Except.bind, Bind.bind,
    Except.pure, Pure.pure, Except.isOk, Except.toBool]

/-- Witness for C4: three parsed values against a one-item blob. -/
theorem assemble_no_length_check_witness :
    (∀ s ∈ (⟨[1, 2, 3], ⟨.hex, ["aabb"]⟩⟩ : BenchmarkUpdates Nat).binary.data,
        (decodeDatum .hex s).isOk = true) ∧
    (⟨[1, 2, 3], ⟨.hex, ["aabb"]⟩⟩ : BenchmarkUpdates Nat).parsed.length ≠
      (⟨[1, 2, 3], ⟨.hex, ["aabb"]⟩⟩ : BenchmarkUpdates Nat).binary.data.length ∧
    (benchmarkUpdatesTryInto (⟨[1, 2, 3], ⟨.hex, ["aabb"]⟩⟩ : BenchmarkUpdates Nat)).isOk
      = true :=
  ⟨by decide, by decide,
    assemble_no_length_check ⟨[1, 2, 3], ⟨.hex, ["aabb"]⟩⟩ (by decide) (by decide)⟩

/-- C5: with no configured provider base address the fetch fails with the
configuration error and performs zero network operations, for every network
oracle, identifier list and publish time. -/
theorem fetch_no_endpoint_no_network {α : Type}
    (net : HttpRequest → Except String (BenchmarkUpdates α))
    (price_ids : List PriceIdentifier) (publish_time : Int) :
    get_verified_price_feeds net none price_ids publish_time =
      (.err "Benchmarks endpoint is not set", []) := rfl

/-- C6: with a configured hierarchical endpoint the fetch issues exactly
one GET request whose path is the interpolated route and whose query is
`encoding=hex`, `parsed=true`, then one `ids` pair per identifier in input
order; an empty identifier list still issues the request. -/
theorem fetch_request_shape {α : Type}
    (net : HttpRequest → Except String (BenchmarkUpdates α))
    (ep : Url) (hep : ep.cannot_be_a_base = false)
    (price_ids : List PriceIdentifier) (publish_time : Int) :
    ∃ u, ep.join ("/v1/updates/price/" ++ toString publish_time) = some u ∧
      u.path = "/v1/updates/price/" ++ toString publish_time ∧
      (get_verified_price_feeds net (some ep) price_ids publish_time).2 =
        [⟨u, 30, [("encoding", "hex"), ("parsed", "true")] ++
          price_ids.map fun pid => ("ids", pid.canonical)⟩] := by
  refine ⟨{ ep with path := "/v1/updates/price/" ++ toString publish_time }, ?_, rfl, ?_⟩
  · simp [Url.join, hep]
  · simp only [get_verified_price_feeds, Url.join, hep, Bool.false_eq_true, if_false]
    split
    · rfl
    · split <;> rfl

/-- Witness for C6: empty identifier list, concrete endpoint and time; the
request is still sent, with only the two fixed query pairs. -/
theorem fetch_request_shape_witness :
    ((⟨false, "https://benchmarks.pyth.network", ""⟩ : Url).cannot_be_a_base = false) ∧
    ∃ u, Url.join ⟨false, "https://benchmarks.pyth.network", ""⟩
        ("/v1/updates/price/" ++ toString (1700000000 : Int)) = some u ∧
      u.path = "/v1/updates/price/" ++ toString (1700000000 : Int) ∧
      (get_verified_price_feeds
          (fun _ => .error "offline" : HttpRequest → Except String (BenchmarkUpdates Nat))
          (some ⟨false, "https://benchmarks.pyth.network", ""⟩) [] 1700000000).2 =
        [⟨u, 30, [("encoding", "hex"), ("parsed", "true")] ++
          ([] : List PriceIdentifier).map fun pid => ("ids", pid.canonical)⟩] :=
  ⟨rfl, fetch_request_shape (fun _ => .error "offline")
    ⟨false, "https://benchmarks.pyth.network", ""⟩ rfl [] 1700000000⟩

end Benchmarks

namespace Benchmarks

/-- C7 (counterexample): the claim that decode-then-encode returns the
original hex string fails on upper-case input: `"AA"` decodes under the Hex
tag, but re-encoding yields canonical lower-case `"aa"`, not `"AA"`. -/
theorem hex_roundtrip_counterexample :
    hexDecode "AA" = .ok [170] ∧ hexEncode [170] = "aa" ∧ hexEncode [170] ≠ "AA" :=
  ⟨by rfl, by rfl, by decide⟩

/-- C7 (amended): for every valid hex string, decoding with the Hex tag and
re-encoding yields the original string with its letters lower-cased — the
canonical case — so the round trip is the identity exactly on
canonically-cased input. -/
theorem hex_decode_encode_lower (s : String) (bs : Bytes) (h : hexDecode s = .ok bs) :
    hexEncode bs = String.mk (s.data.map Char.toLower) := by
  unfold hexDecode at h
  split at h
  · simp at h
  · exact congrArg String.mk (hexDecodeChars_encode h)

/-- Witness for the amended C7 at the mixed-case string `"AaBb"`. -/
theorem hex_decode_encode_lower_witness :
    hexDecode "AaBb" = .ok [170, 187] ∧
    hexEncode [170, 187] = String.mk ("AaBb".data.map Char.toLower) :=
  ⟨by rfl, hex_decode_encode_lower "AaBb" [170, 187] (by rfl)⟩

/-- C8: for every valid base64 string over the standard alphabet with
padding — one the STANDARD engine accepts — decoding with the Base64 tag
and re-encoding as standard padded base64 yields the original string. -/
theorem b64_decode_encode_roundtrip (s : String) (bs : Bytes)
    (h : b64Decode s = .ok bs) : b64Encode bs = s := by
  obtain ⟨d⟩ := s
  exact congrArg String.mk (b64DecodeQuads_encode h)

/-- Witness for C8 at `"aGVsbG8="`. -/
theorem b64_decode_encode_roundtrip_witness :
    b64Decode "aGVsbG8=" = .ok [104, 101, 108, 108, 111] ∧
    b64Encode [104, 101, 108, 108, 111] = "aGVsbG8=" :=
  ⟨by rfl, b64_decode_encode_roundtrip "aGVsbG8=" [104, 101, 108, 108, 111] (by rfl)⟩

/-- C9: for either encoding tag, decoding a blob with an empty data
sequence succeeds with the empty sequence. -/
theorem decode_empty_blob (e : BlobEncoding) :
    binaryBlobTryInto { encoding := e, data := [] } = .ok [] := rfl

/-- C10: joining a configured hierarchical base URL with the formatted
route succeeds for every publish time, negative timestamps included, so the
`.unwrap()` on the join result never panics. -/
theorem join_route_never_panics (ep : Url) (hep : ep.cannot_be_a_base = false)
    (publish_time : Int) :
    (ep.join ("/v1/updates/price/" ++ toString publish_time)).isSome = true ∧
    ∀ {α : Type} (net : HttpRequest → Except String (BenchmarkUpdates α))
      (price_ids : List PriceIdentifier),
      (get_verified_price_feeds net (some ep) price_ids publish_time).1 ≠ .panic := by
  constructor
  · simp [Url.join, hep]
  · intro α net price_ids
    simp only [get_verified_price_feeds, Url.join, hep, Bool.false_eq_true, if_false]
    split
    · simp
    · split <;> simp

/-- Witness for C10 at a concrete endpoint and a negative timestamp. -/
theorem join_route_never_panics_witness :
    ((⟨false, "https://benchmarks.pyth.network", ""⟩ : Url).cannot_be_a_base = false) ∧
    (Url.join ⟨false, "https://benchmarks.pyth.network", ""⟩
      ("/v1/updates/price/" ++ toString (-5 : Int))).isSome = true ∧
    ∀ {α : Type} (net : HttpRequest → Except String (BenchmarkUpdates α))
      (price_ids : List PriceIdentifier),
      (get_verified_price_feeds net
        (some ⟨false, "https://benchmarks.pyth.network", ""⟩) price_ids (-5 : Int)).1 ≠
        .panic :=
  ⟨rfl, join_route_never_panics ⟨false, "https://benchmarks.pyth.network", ""⟩ rfl (-5)⟩

end Benchmarks
